import Mathlib

/-!
Shallow embedding of the metrics-aggregation pipeline of
`src/webapp/src/app/api/repo-metrics/route.ts`.

Conventions of the embedding:
* JavaScript numbers are modelled as exact rationals (`ℚ`); integer-valued
  counters as `ℕ` or `ℤ`.
* Timestamps (the result of `new Date(s).getTime()`) are modelled as `Int`
  milliseconds since the epoch; `null` timestamps as `Option Int`.
* `Math.round` rounds half toward positive infinity, i.e. `⌊x + 1/2⌋`.
* `Math.floor` is `⌊·⌋`, `Math.min`/`Math.max` are `min`/`max`.
* A JavaScript `Map` (insertion-ordered, keys unique) is modelled as an
  association list with in-place replacement on `set` of an existing key.
-/

/-- `Math.round`: nearest integer, halves toward positive infinity. -/
def jsRound (x : ℚ) : ℤ := ⌊x + 1/2⌋

/-- `MILLISECONDS_PER_DAY = 24 * 60 * 60 * 1000`. -/
def MILLISECONDS_PER_DAY : ℤ := 24 * 60 * 60 * 1000

/-- `DEFAULT_RANGE_DAYS = 30`. -/
def DEFAULT_RANGE_DAYS : ℤ := 30

/-- `RangeDescriptor` from `@/lib/sample-data`: `{since, until, label}` with
timestamps modelled as epoch milliseconds. -/
structure RangeDescriptor where
  since : Int
  untilTs : Int
  label : String
deriving DecidableEq, Repr

/-- `coerceRange`: the argument models the result of `Number(range)` — `none`
for a non-finite parse (`NaN`, `±Infinity`, including `Number(undefined)`),
`some q` for a finite numeric value `q`. -/
def coerceRange (numericRange : Option ℚ) : ℤ :=
  match numericRange with
  | none => DEFAULT_RANGE_DAYS
  | some q => if q ≤ 0 then DEFAULT_RANGE_DAYS else min 90 (max 7 ⌊q⌋)

/-- `getRangeDayCount`: `Math.max(1, Math.round(Math.abs(until - since) / MILLISECONDS_PER_DAY))`. -/
def getRangeDayCount (range : RangeDescriptor) : ℤ :=
  max 1 (jsRound ((|range.untilTs - range.since| : ℤ) / (MILLISECONDS_PER_DAY : ℚ)))

/-- `computeRangeDescriptor`: `since?`/`until?` model the optional explicit
bounds (`none` for an absent or empty string, both falsy in JS); `now` models
`new Date().getTime()`. -/
def computeRangeDescriptor (sinceOpt untilOpt : Option Int) (rangeDays : Option ℚ)
    (now : Int) : RangeDescriptor :=
  match sinceOpt, untilOpt with
  | some s, some u => { since := s, untilTs := u, label := toString s ++ " -> " ++ toString u }
  | _, _ =>
    let days := coerceRange rangeDays
    { since := now - days * MILLISECONDS_PER_DAY
      untilTs := now
      label := "Last " ++ toString days ++ " days" }

/-- `{ login, avatar_url? }` of a GitHub pull-request author. -/
structure GitHubUser where
  login : String
  avatar_url : Option String
deriving DecidableEq, Repr

/-- `GitHubPullRequest` (full-detail form). `user` is optional because the
code accesses it as `pr.user?.login`. -/
structure GitHubPullRequest where
  id : Nat
  number : Nat
  title : String
  user : Option GitHubUser
  merged_at : Option Int
  created_at : Int
  updated_at : Int
  closed_at : Option Int
  additions : Nat
  deletions : Nat
  changed_files : Nat
  commits : Nat
  headRef : String
  baseRef : String
  html_url : String
  draft : Bool
deriving DecidableEq, Repr

/-- `withinRange`: true iff the timestamp is non-null and lies in
`[range.since, range.until]` inclusive. -/
def withinRange (timestamp : Option Int) (range : RangeDescriptor) : Bool :=
  match timestamp with
  | none => false
  | some time => range.since ≤ time && time ≤ range.untilTs

/-- `calculateImpactScore`: bounded synthetic impact score of one PR. -/
def calculateImpactScore (pr : GitHubPullRequest) : ℤ :=
  let sizeFactor : ℚ := min 30 ((pr.additions : ℚ) + (pr.deletions : ℚ)) / 30
  let filesFactor : ℚ := min 20 (pr.changed_files : ℚ) / 20
  let commitsFactor : ℚ := min 10 (pr.commits : ℚ) / 10
  let draftPenalty : ℚ := if pr.draft then 9/10 else 1
  jsRound ((50 * sizeFactor + 30 * filesFactor + 20 * commitsFactor) * draftPenalty)

/-- `RepoMetric` from `@/lib/sample-data`, as used by the aggregator. -/
structure RepoMetric where
  name : String
  owner : String
  fullName : String
  activeContributors : Nat
  mergedPRs : Nat
  openPRs : Nat
  commits : Nat
  linesAdded : Nat
  linesDeleted : Nat
  deploymentFrequency : ℤ
  averageLeadTimeHours : ℤ
  issuesClosed : Nat
  healthScore : ℤ
  languages : List String
deriving DecidableEq, Repr

/-- `EngineerMetric` from `@/lib/sample-data`, as used by the aggregator. -/
structure EngineerMetric where
  engineer : String
  avatarUrl : Option String
  repos : List String
  mergedPRs : Nat
  commits : Nat
  reviews : Nat
  linesAdded : Nat
  linesDeleted : Nat
  impactScore : ℤ
  avgCycleTimeHours : ℤ
  avgReviewTurnaroundHours : ℤ
  lastActive : Int
deriving DecidableEq, Repr

/-- `HighImpactPR` from `@/lib/sample-data`. -/
structure HighImpactPR where
  id : Nat
  title : String
  repo : String
  author : String
  mergedAt : Int
  additions : Nat
  deletions : Nat
  changedFiles : Nat
  leadTimeHours : ℤ
  url : String
  summary : String
deriving DecidableEq, Repr

/-- `Map.get` of a JavaScript `Map` modelled as an association list:
the value at the first (unique) occurrence of the key. -/
def mapGet (m : List (String × EngineerMetric)) (k : String) : Option EngineerMetric :=
  match m with
  | [] => none
  | (k', v') :: rest => if k' == k then some v' else mapGet rest k

/-- `Map.set` of a JavaScript `Map`: replace in place if the key is present
(insertion order preserved), append otherwise. -/
def mapSet (m : List (String × EngineerMetric)) (k : String) (v : EngineerMetric) :
    List (String × EngineerMetric) :=
  match m with
  | [] => [(k, v)]
  | (k', v') :: rest => if k' == k then (k, v) :: rest else (k', v') :: mapSet rest k v

/-- `pr.user?.login ?? "unknown"`. -/
def authorOf (pr : GitHubPullRequest) : String :=
  match pr.user with
  | some u => u.login
  | none => "unknown"

/-- The fresh engineer record built when `engineerAccumulator.get(author)`
returns nothing (the `??` default object in `aggregateMetrics`). -/
def freshEngineer (pr : GitHubPullRequest) : EngineerMetric :=
  { engineer := authorOf pr
    avatarUrl := pr.user.bind (fun u => u.avatar_url)
    repos := []
    mergedPRs := 0
    commits := 0
    reviews := 0
    linesAdded := 0
    linesDeleted := 0
    impactScore := 0
    avgCycleTimeHours := 0
    avgReviewTurnaroundHours := 0
    lastActive := pr.updated_at }

/-- `1000 * 60 * 60` milliseconds, the hour divisor of lead times. -/
def MILLISECONDS_PER_HOUR : ℤ := 1000 * 60 * 60

/-- Lead time of a PR in (exact, fractional) hours:
`(merged_at - created_at) / (1000*60*60)`; the callers only evaluate it on
PRs whose `merged_at` is non-null (`pr.merged_at!`). -/
def leadTimeHoursOf (pr : GitHubPullRequest) : ℚ :=
  ((pr.merged_at.getD 0 - pr.created_at : ℤ) : ℚ) / (MILLISECONDS_PER_HOUR : ℚ)

/-- The per-PR update of one author's engineer record inside the
`pullRequests.forEach` body of `aggregateMetrics` (everything done between
`get` and `set` of the accumulator map). -/
def engUpd (repoName : String) (range : RangeDescriptor)
    (cur : Option EngineerMetric) (pr : GitHubPullRequest) : EngineerMetric :=
  let existing := cur.getD (freshEngineer pr)
  let existing :=
    if existing.repos.contains repoName then existing
    else { existing with repos := existing.repos ++ [repoName] }
  if withinRange pr.merged_at range then
    { existing with
      mergedPRs := existing.mergedPRs + 1
      linesAdded := existing.linesAdded + pr.additions
      linesDeleted := existing.linesDeleted + pr.deletions
      commits := existing.commits + pr.commits
      impactScore := existing.impactScore + calculateImpactScore pr
      lastActive :=
        if pr.updated_at > existing.lastActive then pr.updated_at
        else existing.lastActive }
  else existing

/-- The per-PR update of the repo-level counters inside the `forEach` body. -/
def repoUpd (range : RangeDescriptor) (m : RepoMetric) (pr : GitHubPullRequest) :
    RepoMetric :=
  if withinRange pr.merged_at range then
    { m with
      mergedPRs := m.mergedPRs + 1
      linesAdded := m.linesAdded + pr.additions
      linesDeleted := m.linesDeleted + pr.deletions
      commits := m.commits + pr.commits }
  else
    { m with openPRs := m.openPRs + 1 }

/-- The `HighImpactPR` summary pushed for an in-window-merged PR. -/
def mkHighImpact (repoName repoOwner : String) (pr : GitHubPullRequest) :
    HighImpactPR :=
  { id := pr.id
    title := pr.title
    repo := repoOwner ++ "/" ++ repoName
    author := authorOf pr
    mergedAt := pr.merged_at.getD 0
    additions := pr.additions
    deletions := pr.deletions
    changedFiles := pr.changed_files
    leadTimeHours := max 1 (jsRound (leadTimeHoursOf pr))
    url := pr.html_url
    summary := "Merged into " ++ pr.baseRef ++ " from " ++ pr.headRef }

/-- The per-PR update of the high-impact list inside the `forEach` body. -/
def hiUpd (repoName repoOwner : String) (range : RangeDescriptor)
    (hi : List HighImpactPR) (pr : GitHubPullRequest) : List HighImpactPR :=
  if withinRange pr.merged_at range then hi ++ [mkHighImpact repoName repoOwner pr]
  else hi

/-- The mutable state of the `pullRequests.forEach` fold in `aggregateMetrics`. -/
structure AggState where
  repoMetric : RepoMetric
  engineers : List (String × EngineerMetric)
  highImpact : List HighImpactPR
deriving Repr

/-- One iteration of the `pullRequests.forEach` body. -/
def aggStep (repoName repoOwner : String) (range : RangeDescriptor)
    (st : AggState) (pr : GitHubPullRequest) : AggState :=
  let author := authorOf pr
  { repoMetric := repoUpd range st.repoMetric pr
    engineers := mapSet st.engineers author (engUpd repoName range (mapGet st.engineers author) pr)
    highImpact := hiUpd repoName repoOwner range st.highImpact pr }

/-- The initial `repoMetric` accumulator literal of `aggregateMetrics`. -/
def initRepoMetric (repoName repoOwner : String) : RepoMetric :=
  { name := repoName
    owner := repoOwner
    fullName := repoOwner ++ "/" ++ repoName
    activeContributors := 0
    mergedPRs := 0
    openPRs := 0
    commits := 0
    linesAdded := 0
    linesDeleted := 0
    deploymentFrequency := 0
    averageLeadTimeHours := 0
    issuesClosed := 0
    healthScore := 0
    languages := [] }

/-- Stable descending insertion by a numeric key (models the stable JS
`Array.sort` with comparator `(a, b) => key b - key a`). -/
def insertDescBySize (x : HighImpactPR) : List HighImpactPR → List HighImpactPR
  | [] => [x]
  | y :: ys =>
    if y.additions + y.deletions < x.additions + x.deletions then x :: y :: ys
    else y :: insertDescBySize x ys

/-- Stable sort, descending by `additions + deletions`. -/
def sortDescBySize (l : List HighImpactPR) : List HighImpactPR :=
  l.foldl (fun acc x => insertDescBySize x acc) []

/-- The output record of `aggregateMetrics`. -/
structure AggResult where
  repoMetric : RepoMetric
  engineerMetrics : List EngineerMetric
  highImpact : List HighImpactPR
deriving Repr

/-- The callback of the final `Array.from(engineerAccumulator.values()).map`
of `aggregateMetrics`: fill in `avgCycleTimeHours` as the mean lead time over
the entry's in-window-merged PRs in this repo (0 if none). -/
def postCycle (pullRequests : List GitHubPullRequest) (range : RangeDescriptor)
    (entry : EngineerMetric) : EngineerMetric :=
  { entry with
    avgCycleTimeHours :=
      if 0 < entry.mergedPRs then
        jsRound
          ((((pullRequests.filter (fun pr =>
                match pr.user with
                | some u => u.login == entry.engineer
                | none => false)).filter
              (fun pr => withinRange pr.merged_at range)).map leadTimeHoursOf).sum /
            (entry.mergedPRs : ℚ))
      else 0 }

/-- `aggregateMetrics`: fold one repository's pull requests into a repo
metric, per-engineer partial metrics and up to 10 high-impact summaries. -/
def aggregateMetrics (repoName repoOwner : String)
    (pullRequests : List GitHubPullRequest) (range : RangeDescriptor) : AggResult :=
  let st := pullRequests.foldl (aggStep repoName repoOwner range)
    { repoMetric := initRepoMetric repoName repoOwner, engineers := [], highImpact := [] }
  let m := st.repoMetric
  let mergedInWindow := pullRequests.filter (fun pr => withinRange pr.merged_at range)
  let deploymentFrequency : ℤ :=
    max 1 (jsRound ((m.mergedPRs : ℚ) / (getRangeDayCount range : ℚ)))
  let averageLeadTimeHours : ℤ :=
    if 0 < m.mergedPRs then
      jsRound ((mergedInWindow.map leadTimeHoursOf).sum / (m.mergedPRs : ℚ))
    else 0
  let healthScore : ℤ :=
    max 0 (min 100 (jsRound
      ((m.mergedPRs : ℚ) * (3/10) + (deploymentFrequency : ℚ) * 6 +
        max 0 (40 - (m.openPRs : ℚ) * 2))))
  let engineerMetrics := st.engineers.map (fun p => postCycle pullRequests range p.2)
  { repoMetric :=
      { m with
        activeContributors := st.engineers.length
        deploymentFrequency := deploymentFrequency
        averageLeadTimeHours := averageLeadTimeHours
        healthScore := healthScore }
    engineerMetrics := engineerMetrics
    highImpact := (sortDescBySize st.highImpact).take 10 }

/-- The mid-page stop test of `fetchPullRequestsForRepo`:
`pr.merged_at && new Date(pr.merged_at).getTime() < since - 1000*60*60*24`. -/
def isStaleMerge (since : Int) (pr : GitHubPullRequest) : Bool :=
  match pr.merged_at with
  | some t => t < since - 1000 * 60 * 60 * 24
  | none => false

/-- The `for (const pr of batch)` body of `fetchPullRequestsForRepo`: collect
full-detail records until the first stale-merged PR, and report whether one
was encountered (the `break`). The per-PR detail lookup is modelled as
returning the same (already full-detail) record. -/
def scanBatch (since : Int) : List GitHubPullRequest →
    List GitHubPullRequest × Bool
  | [] => ([], false)
  | pr :: rest =>
    if isStaleMerge since pr then ([], true)
    else
      let (tl, encountered) := scanBatch since rest
      (pr :: tl, encountered)

/-- The `while (shouldContinue && page <= 5)` loop of
`fetchPullRequestsForRepo`. `pages` models the platform's paginated listing
(page number to batch). The iteration: scan the batch (stopping mid-page at a
stale merge, which also assigns `shouldContinue = false`), then
unconditionally reassign `shouldContinue = batch.length === perPage` — so the
mid-page assignment is dead, exactly as in the source. The first argument is
fuel; 6 units suffice for the at most 5 iterations allowed by `page <= 5`. -/
def fetchPagesLoop (pages : Nat → List GitHubPullRequest) (since : Int) :
    Nat → Nat → Bool → List GitHubPullRequest
  | 0, _, _ => []
  | fuel + 1, page, shouldContinue =>
    if shouldContinue ∧ page ≤ 5 then
      let batch := pages page
      let scanned := scanBatch since batch
      scanned.1 ++ fetchPagesLoop pages since fuel (page + 1) (batch.length == 50)
    else []

/-- `fetchPullRequestsForRepo` (pagination structure; `perPage = 50`). -/
def fetchPullRequestsForRepo (pages : Nat → List GitHubPullRequest)
    (range : RangeDescriptor) : List GitHubPullRequest :=
  fetchPagesLoop pages range.since 6 1 true

/-- `TimelinePoint`: one weekly bucket of the snapshot timeline. -/
structure TimelinePoint where
  week : String
  mergedPRs : Nat
  commits : Nat
  linesAdded : Nat
  linesDeleted : Nat
deriving DecidableEq, Repr

/-- `MetricSnapshot` from `@/lib/sample-data`: the aggregate root. -/
structure MetricSnapshot where
  generatedAt : Int
  range : RangeDescriptor
  repos : List RepoMetric
  engineers : List EngineerMetric
  timeline : List TimelinePoint
  highImpactPRs : List HighImpactPR
deriving Repr

/-- Modelled from the spec: `mockMetricSnapshot`, the "precomputed
illustrative snapshot" exported by the `@/lib/sample-data` module, which is
not under `src/`. Its exact contents are irrelevant to every claim (only its
identity as the fixed fallback value matters), so it is modelled as an
arbitrary fixed snapshot. -/
def mockMetricSnapshot : MetricSnapshot :=
  { generatedAt := 0
    range := { since := 0, untilTs := 0, label := "illustrative" }
    repos := []
    engineers := []
    timeline := []
    highImpactPRs := [] }

/-- The body of a response of the inbound `POST` operation: either a
snapshot, or an `{ error, fallback }` object. -/
inductive PostBody where
  | snapshot (s : MetricSnapshot)
  | errorWithFallback (error : String) (fallback : MetricSnapshot)

/-- An HTTP response of the inbound operation: status code and JSON body. -/
structure PostResponse where
  status : Nat
  body : PostBody

/-- The repository-selection guard at the head of `buildSnapshot`:
`selectedRepos && selectedRepos.length > 0`, else `org`, else
`throw new Error("Either org or repos must be provided")`. -/
def buildSnapshotGuard (org : Option String) (repos : Option (List String)) :
    Except String Unit :=
  match repos with
  | some rs =>
    if 0 < rs.length then Except.ok ()
    else
      match org with
      | some _ => Except.ok ()
      | none => Except.error "Either org or repos must be provided"
  | none =>
    match org with
    | some _ => Except.ok ()
    | none => Except.error "Either org or repos must be provided"

/-- The outcome of `buildSnapshot`: the guard first; past it, the outcome of
the network-dependent remainder is abstracted as `fetched` (any failed
outbound call rejects the whole build with its error message). -/
def buildSnapshotOutcome (org : Option String) (repos : Option (List String))
    (fetched : Except String MetricSnapshot) : Except String MetricSnapshot :=
  match buildSnapshotGuard org repos with
  | Except.error e => Except.error e
  | Except.ok _ => fetched

/-- The `POST` handler: `if (!token)` return the mock snapshot with status
200; otherwise wrap the build outcome — a snapshot on success, an
`{ error, fallback: mock }` body on failure — always with status 200.
`buildOutcome` models the result of `buildSnapshot` (only reached in the
`token` branch; the credential check precedes every outbound call). -/
def POST (tokenPresent : Bool) (buildOutcome : Except String MetricSnapshot) :
    PostResponse :=
  if tokenPresent = false then
    { status := 200, body := PostBody.snapshot mockMetricSnapshot }
  else
    match buildOutcome with
    | Except.ok snapshot => { status := 200, body := PostBody.snapshot snapshot }
    | Except.error e =>
      { status := 200, body := PostBody.errorWithFallback e mockMetricSnapshot }

example : coerceRange none = 30 := by norm_num [coerceRange, DEFAULT_RANGE_DAYS]
example : coerceRange (some (200 : ℚ)) = 90 := by norm_num [coerceRange]
example : coerceRange (some (-3 : ℚ)) = 30 := by norm_num [coerceRange, DEFAULT_RANGE_DAYS]
example : coerceRange (some (12 + 1/2 : ℚ)) = 12 := by norm_num [coerceRange]
example : getRangeDayCount { since := 0, untilTs := 129600000, label := "" } = 2 := by
  norm_num [getRangeDayCount, jsRound, MILLISECONDS_PER_DAY]
example : jsRound (3/2) = 2 := by norm_num [jsRound]
example : jsRound (-3/2) = -1 := by norm_num [jsRound]

example :
    calculateImpactScore
      { id := 0, number := 0, title := "", user := none, merged_at := none
        created_at := 0, updated_at := 0, closed_at := none
        additions := 40, deletions := 10, changed_files := 3, commits := 5
        headRef := "", baseRef := "", html_url := "", draft := false } = 65 := by
  norm_num [calculateImpactScore, jsRound, min_def]

example :
    calculateImpactScore
      { id := 0, number := 0, title := "", user := none, merged_at := none
        created_at := 0, updated_at := 0, closed_at := none
        additions := 5, deletions := 5, changed_files := 1, commits := 1
        headRef := "", baseRef := "", html_url := "", draft := true } = 18 := by
  norm_num [calculateImpactScore, jsRound, min_def]

/-! ### Arithmetic facts about `jsRound` -/

theorem jsRound_mono {x y : ℚ} (h : x ≤ y) : jsRound x ≤ jsRound y :=
  Int.floor_mono (by linarith)

theorem jsRound_intCast (n : ℤ) : jsRound (n : ℚ) = n := by
  unfold jsRound
  rw [Int.floor_int_add]
  norm_num

theorem jsRound_le_int {x : ℚ} {n : ℤ} (h : x ≤ (n : ℚ)) : jsRound x ≤ n := by
  have := jsRound_mono h
  rwa [jsRound_intCast] at this

theorem int_le_jsRound {x : ℚ} {n : ℤ} (h : (n : ℚ) ≤ x) : n ≤ jsRound x := by
  have := jsRound_mono h
  rwa [jsRound_intCast] at this

theorem jsRound_nonneg {x : ℚ} (h : 0 ≤ x) : 0 ≤ jsRound x :=
  int_le_jsRound (by exact_mod_cast h)

theorem jsRound_le_add_half (x : ℚ) : (jsRound x : ℚ) ≤ x + 1/2 :=
  Int.floor_le _

theorem sub_half_lt_jsRound (x : ℚ) : x - 1/2 < (jsRound x : ℚ) := by
  have := Int.lt_floor_add_one (x + 1/2)
  unfold jsRound
  linarith

/-- A saturating factor `min c x / c` lies in `[0, 1]`. -/
theorem saturating_factor_mem {c x : ℚ} (hc : 0 < c) (hx : 0 ≤ x) :
    0 ≤ min c x / c ∧ min c x / c ≤ 1 := by
  constructor
  · exact div_nonneg (le_min hc.le hx) hc.le
  · rw [div_le_one hc]
    exact min_le_left _ _

/-! ### Association-map lemmas -/

theorem mapGet_mapSet_self (m : List (String × EngineerMetric)) (k : String)
    (v : EngineerMetric) : mapGet (mapSet m k v) k = some v := by
  induction m with
  | nil => simp [mapGet, mapSet]
  | cons p rest ih =>
    obtain ⟨a, b⟩ := p
    by_cases h : a = k <;> simp [mapSet, mapGet, h, ih]

theorem mapGet_mapSet_ne (m : List (String × EngineerMetric)) (k k' : String)
    (v : EngineerMetric) (h : k ≠ k') :
    mapGet (mapSet m k v) k' = mapGet m k' := by
  induction m with
  | nil => simp [mapGet, mapSet, h]
  | cons p rest ih =>
    obtain ⟨a, b⟩ := p
    by_cases h2 : a = k <;> simp [mapSet, mapGet, h2, h, ih]

theorem mapGet_eq_some_mem {m : List (String × EngineerMetric)} {k : String}
    {v : EngineerMetric} (h : mapGet m k = some v) : (k, v) ∈ m := by
  induction m with
  | nil => simp [mapGet] at h
  | cons p rest ih =>
    obtain ⟨a, b⟩ := p
    by_cases h2 : a = k
    · subst h2
      simp [mapGet] at h
      subst h
      exact List.mem_cons_self _ _
    · simp [mapGet, h2] at h
      exact List.mem_cons_of_mem _ (ih h)

theorem mem_mapSet {m : List (String × EngineerMetric)} {k : String}
    {v : EngineerMetric} {p : String × EngineerMetric} (h : p ∈ mapSet m k v) :
    p = (k, v) ∨ p ∈ m := by
  induction m with
  | nil => simp [mapSet] at h; simp [h]
  | cons q rest ih =>
    obtain ⟨a, b⟩ := q
    by_cases h2 : a = k
    · simp [mapSet, h2] at h
      rcases h with h | h
      · exact Or.inl h
      · exact Or.inr (List.mem_cons_of_mem _ h)
    · simp [mapSet, h2] at h
      rcases h with h | h
      · exact Or.inr (by simp [h])
      · rcases ih h with h3 | h3
        · exact Or.inl h3
        · exact Or.inr (List.mem_cons_of_mem _ h3)

/-! ### Field-level description of one engineer-record update -/

theorem engUpd_fields (n : String) (rg : RangeDescriptor)
    (c : Option EngineerMetric) (pr : GitHubPullRequest) :
    (engUpd n rg c pr).engineer =
        (match c with | none => authorOf pr | some r => r.engineer) ∧
      (engUpd n rg c pr).mergedPRs =
        (match c with | none => 0 | some r => r.mergedPRs) +
          (if withinRange pr.merged_at rg then 1 else 0) ∧
      (engUpd n rg c pr).linesAdded =
        (match c with | none => 0 | some r => r.linesAdded) +
          (if withinRange pr.merged_at rg then pr.additions else 0) ∧
      (engUpd n rg c pr).linesDeleted =
        (match c with | none => 0 | some r => r.linesDeleted) +
          (if withinRange pr.merged_at rg then pr.deletions else 0) ∧
      (engUpd n rg c pr).commits =
        (match c with | none => 0 | some r => r.commits) +
          (if withinRange pr.merged_at rg then pr.commits else 0) ∧
      (engUpd n rg c pr).lastActive =
        (match c with
         | none => pr.updated_at
         | some r =>
           if withinRange pr.merged_at rg then max r.lastActive pr.updated_at
           else r.lastActive) := by
  have hgt : ∀ l u : ℤ, (if u > l then u else l) = max l u := by
    intro l u
    rw [max_def]
    split <;> split <;> omega
  cases c with
  | none =>
    by_cases hw : withinRange pr.merged_at rg <;>
      simp [engUpd, freshEngineer, hw]
  | some r =>
    by_cases hrep : n ∈ r.repos <;>
      by_cases hw : withinRange pr.merged_at rg <;>
        simp [engUpd, freshEngineer, hw, hrep, hgt]

/-! ### Running the `aggregateMetrics` fold -/

theorem foldl_aggStep_mapGet (n o : String) (rg : RangeDescriptor)
    (prs : List GitHubPullRequest) (st : AggState) (a : String) :
    mapGet (prs.foldl (aggStep n o rg) st).engineers a =
      (prs.filter (fun pr => authorOf pr == a)).foldl
        (fun c pr => some (engUpd n rg c pr)) (mapGet st.engineers a) := by
  induction prs generalizing st with
  | nil => rfl
  | cons pr rest ih =>
    rw [List.foldl_cons, ih, List.filter_cons]
    by_cases h : authorOf pr = a
    · simp only [h, beq_self_eq_true, if_true, List.foldl_cons]
      congr 1
      show mapGet (mapSet st.engineers (authorOf pr)
        (engUpd n rg (mapGet st.engineers (authorOf pr)) pr)) a = _
      rw [h, mapGet_mapSet_self]
    · have hb : (authorOf pr == a) = false := by simp [h]
      simp only [hb, Bool.false_eq_true, if_false]
      congr 1
      show mapGet (mapSet st.engineers (authorOf pr)
        (engUpd n rg (mapGet st.engineers (authorOf pr)) pr)) a = _
      exact mapGet_mapSet_ne _ _ _ _ h

theorem foldl_aggStep_repo (n o : String) (rg : RangeDescriptor)
    (prs : List GitHubPullRequest) (st : AggState) :
    (prs.foldl (aggStep n o rg) st).repoMetric.mergedPRs =
        st.repoMetric.mergedPRs +
          prs.countP (fun pr => withinRange pr.merged_at rg) ∧
      (prs.foldl (aggStep n o rg) st).repoMetric.linesAdded =
        st.repoMetric.linesAdded +
          ((prs.filter (fun pr => withinRange pr.merged_at rg)).map
            GitHubPullRequest.additions).sum ∧
      (prs.foldl (aggStep n o rg) st).repoMetric.linesDeleted =
        st.repoMetric.linesDeleted +
          ((prs.filter (fun pr => withinRange pr.merged_at rg)).map
            GitHubPullRequest.deletions).sum ∧
      (prs.foldl (aggStep n o rg) st).repoMetric.commits =
        st.repoMetric.commits +
          ((prs.filter (fun pr => withinRange pr.merged_at rg)).map
            GitHubPullRequest.commits).sum ∧
      (prs.foldl (aggStep n o rg) st).repoMetric.openPRs =
        st.repoMetric.openPRs +
          prs.countP (fun pr => !(withinRange pr.merged_at rg)) := by
  induction prs generalizing st with
  | nil => simp
  | cons pr rest ih =>
    rw [List.foldl_cons]
    obtain ⟨h1, h2, h3, h4, h5⟩ := ih (aggStep n o rg st pr)
    have hrm : (aggStep n o rg st pr).repoMetric = repoUpd rg st.repoMetric pr := rfl
    rw [hrm] at h1 h2 h3 h4 h5
    by_cases hw : withinRange pr.merged_at rg <;>
      simp [repoUpd, hw, List.countP_cons, List.filter_cons] at h1 h2 h3 h4 h5 ⊢ <;>
      refine ⟨by omega, by omega, by omega, by omega, by omega⟩

theorem engFold_totals (n : String) (rg : RangeDescriptor)
    (l : List GitHubPullRequest) :
    ∀ (c : Option EngineerMetric) (e : EngineerMetric),
      l.foldl (fun c pr => some (engUpd n rg c pr)) c = some e →
      e.mergedPRs = (match c with | none => 0 | some r => r.mergedPRs) +
          l.countP (fun pr => withinRange pr.merged_at rg) ∧
        e.linesAdded = (match c with | none => 0 | some r => r.linesAdded) +
          ((l.filter (fun pr => withinRange pr.merged_at rg)).map
            GitHubPullRequest.additions).sum ∧
        e.linesDeleted = (match c with | none => 0 | some r => r.linesDeleted) +
          ((l.filter (fun pr => withinRange pr.merged_at rg)).map
            GitHubPullRequest.deletions).sum ∧
        e.commits = (match c with | none => 0 | some r => r.commits) +
          ((l.filter (fun pr => withinRange pr.merged_at rg)).map
            GitHubPullRequest.commits).sum := by
  induction l with
  | nil =>
    intro c e h
    cases c with
    | none => simp at h
    | some r =>
      simp at h
      subst h
      simp
  | cons pr rest ih =>
    intro c e h
    rw [List.foldl_cons] at h
    obtain ⟨h1, h2, h3, h4⟩ := ih (some (engUpd n rg c pr)) e h
    obtain ⟨-, hm, ha, hd, hc, -⟩ := engUpd_fields n rg c pr
    cases c <;> by_cases hw : withinRange pr.merged_at rg <;>
      simp [hw, List.countP_cons, List.filter_cons, hm, ha, hd, hc] at h1 h2 h3 h4 ⊢ <;>
      refine ⟨by omega, by omega, by omega, by omega⟩

theorem engFold_isSome (n : String) (rg : RangeDescriptor)
    (l : List GitHubPullRequest) :
    ∀ c : EngineerMetric,
      ∃ e, l.foldl (fun c pr => some (engUpd n rg c pr)) (some c) = some e := by
  induction l with
  | nil => exact fun c => ⟨c, rfl⟩
  | cons pr rest ih =>
    intro c
    rw [List.foldl_cons]
    exact ih (engUpd n rg (some c) pr)

theorem engFold_lastActive (n : String) (rg : RangeDescriptor)
    (l : List GitHubPullRequest) :
    ∀ c e : EngineerMetric,
      l.foldl (fun c pr => some (engUpd n rg c pr)) (some c) = some e →
      e.lastActive = l.foldl
        (fun m pr => if withinRange pr.merged_at rg then max m pr.updated_at else m)
        c.lastActive := by
  induction l with
  | nil =>
    intro c e h
    simp at h
    subst h
    rfl
  | cons pr rest ih =>
    intro c e h
    rw [List.foldl_cons] at h
    rw [List.foldl_cons]
    rw [ih (engUpd n rg (some c) pr) e h]
    congr 1
    obtain ⟨-, -, -, -, -, hl⟩ := engUpd_fields n rg (some c) pr
    simpa using hl

theorem foldl_aggStep_keys (n o : String) (rg : RangeDescriptor)
    (prs : List GitHubPullRequest) (st : AggState)
    (h : ∀ p ∈ st.engineers, p.2.engineer = p.1) :
    ∀ p ∈ (prs.foldl (aggStep n o rg) st).engineers, p.2.engineer = p.1 := by
  induction prs generalizing st with
  | nil => exact h
  | cons pr rest ih =>
    rw [List.foldl_cons]
    apply ih
    intro p hp
    have hp' : p ∈ mapSet st.engineers (authorOf pr)
        (engUpd n rg (mapGet st.engineers (authorOf pr)) pr) := hp
    rcases mem_mapSet hp' with he | hmem
    · obtain ⟨heng, -, -, -, -, -⟩ :=
        engUpd_fields n rg (mapGet st.engineers (authorOf pr)) pr
      rw [he]
      show (engUpd n rg (mapGet st.engineers (authorOf pr)) pr).engineer = authorOf pr
      rw [heng]
      cases hg : mapGet st.engineers (authorOf pr) with
      | none => rfl
      | some r => exact h _ (mapGet_eq_some_mem hg)
    · exact h p hmem

theorem find_map_values (f : EngineerMetric → EngineerMetric)
    (hf : ∀ e, (f e).engineer = e.engineer)
    (m : List (String × EngineerMetric)) (a : String)
    (hm : ∀ p ∈ m, p.2.engineer = p.1) :
    (m.map (fun p => f p.2)).find? (fun e => e.engineer == a) =
      (mapGet m a).map f := by
  induction m with
  | nil => rfl
  | cons p rest ih =>
    obtain ⟨k, v⟩ := p
    have hv : v.engineer = k := hm (k, v) (List.mem_cons_self _ _)
    have hrest := ih (fun q hq => hm q (List.mem_cons_of_mem _ hq))
    by_cases h : k = a
    · subst h
      simp [List.find?, hf, hv, mapGet]
    · have hb : (k == a) = false := by simp [h]
      simp [List.find?, hf, hv, h, hb, mapGet, hrest]

/-- C4: For every pull request, the impact score computed by
`calculateImpactScore` is an integer (its codomain is `ℤ` by construction)
lying in `[0, 100]` when the PR is not a draft and in `[0, 90]` when it is a
draft. -/
theorem claim_C4_impact_score_bounds (pr : GitHubPullRequest) :
    0 ≤ calculateImpactScore pr ∧
      calculateImpactScore pr ≤ if pr.draft then 90 else 100 := by
  obtain ⟨hs0, hs1⟩ := saturating_factor_mem (c := 30)
    (x := (pr.additions : ℚ) + (pr.deletions : ℚ)) (by norm_num) (by positivity)
  obtain ⟨hf0, hf1⟩ := saturating_factor_mem (c := 20)
    (x := (pr.changed_files : ℚ)) (by norm_num) (by positivity)
  obtain ⟨hc0, hc1⟩ := saturating_factor_mem (c := 10)
    (x := (pr.commits : ℚ)) (by norm_num) (by positivity)
  simp only [calculateImpactScore]
  by_cases hd : pr.draft = true <;>
    simp only [hd, if_true, if_false, Bool.false_eq_true, reduceIte] <;>
    constructor
  · exact jsRound_nonneg (by nlinarith)
  · exact jsRound_le_int (by nlinarith)
  · exact jsRound_nonneg (by nlinarith)
  · exact jsRound_le_int (by nlinarith)

/-- Monotonicity of the impact score in `additions + deletions`, holding the
other inputs fixed. -/
theorem impactScore_mono_size {p q : GitHubPullRequest}
    (hf : p.changed_files = q.changed_files) (hc : p.commits = q.commits)
    (hd : p.draft = q.draft)
    (h : p.additions + p.deletions ≤ q.additions + q.deletions) :
    calculateImpactScore p ≤ calculateImpactScore q := by
  simp only [calculateImpactScore]
  rw [hf, hc, hd]
  apply jsRound_mono
  have hA : (p.additions : ℚ) + (p.deletions : ℚ) ≤ (q.additions : ℚ) + (q.deletions : ℚ) := by
    exact_mod_cast h
  have hpen : (0 : ℚ) ≤ if q.draft then 9/10 else 1 := by split <;> norm_num
  apply mul_le_mul_of_nonneg_right _ hpen
  gcongr

/-- Monotonicity of the impact score in `changed_files`, holding the other
inputs fixed. -/
theorem impactScore_mono_files {p q : GitHubPullRequest}
    (ha : p.additions = q.additions) (hb : p.deletions = q.deletions)
    (hc : p.commits = q.commits) (hd : p.draft = q.draft)
    (h : p.changed_files ≤ q.changed_files) :
    calculateImpactScore p ≤ calculateImpactScore q := by
  simp only [calculateImpactScore]
  rw [ha, hb, hc, hd]
  apply jsRound_mono
  have hA : (p.changed_files : ℚ) ≤ (q.changed_files : ℚ) := by exact_mod_cast h
  have hpen : (0 : ℚ) ≤ if q.draft then 9/10 else 1 := by split <;> norm_num
  apply mul_le_mul_of_nonneg_right _ hpen
  gcongr

/-- Monotonicity of the impact score in `commits`, holding the other inputs
fixed. -/
theorem impactScore_mono_commits {p q : GitHubPullRequest}
    (ha : p.additions = q.additions) (hb : p.deletions = q.deletions)
    (hf : p.changed_files = q.changed_files) (hd : p.draft = q.draft)
    (h : p.commits ≤ q.commits) :
    calculateImpactScore p ≤ calculateImpactScore q := by
  simp only [calculateImpactScore]
  rw [ha, hb, hf, hd]
  apply jsRound_mono
  have hA : (p.commits : ℚ) ≤ (q.commits : ℚ) := by exact_mod_cast h
  have hpen : (0 : ℚ) ≤ if q.draft then 9/10 else 1 := by split <;> norm_num
  apply mul_le_mul_of_nonneg_right _ hpen
  gcongr

/-- C5: The impact score is monotonically non-decreasing in each of
`additions + deletions`, `changed_files` and `commits` independently (the
other inputs and the draft flag held fixed), up to the saturation points 30,
20 and 10 respectively. -/
theorem claim_C5_impact_score_monotone (p q : GitHubPullRequest) :
    (p.changed_files = q.changed_files → p.commits = q.commits →
      p.draft = q.draft →
      p.additions + p.deletions ≤ q.additions + q.deletions →
      q.additions + q.deletions ≤ 30 →
      calculateImpactScore p ≤ calculateImpactScore q) ∧
    (p.additions = q.additions → p.deletions = q.deletions →
      p.commits = q.commits → p.draft = q.draft →
      p.changed_files ≤ q.changed_files → q.changed_files ≤ 20 →
      calculateImpactScore p ≤ calculateImpactScore q) ∧
    (p.additions = q.additions → p.deletions = q.deletions →
      p.changed_files = q.changed_files → p.draft = q.draft →
      p.commits ≤ q.commits → q.commits ≤ 10 →
      calculateImpactScore p ≤ calculateImpactScore q) :=
  ⟨fun hf hc hd h _ => impactScore_mono_size hf hc hd h,
   fun ha hb hc hd h _ => impactScore_mono_files ha hb hc hd h,
   fun ha hb hf hd h _ => impactScore_mono_commits ha hb hf hd h⟩

/-- A small non-draft PR used to instantiate the monotonicity claim. -/
def smallSizePR : GitHubPullRequest :=
  { id := 10, number := 10, title := "a", user := none, merged_at := none
    created_at := 0, updated_at := 0, closed_at := none
    additions := 5, deletions := 0, changed_files := 2, commits := 1
    headRef := "h", baseRef := "b", html_url := "", draft := false }

/-- The same PR with a larger (still unsaturated) size. -/
def largerSizePR : GitHubPullRequest := { smallSizePR with additions := 20 }

theorem claim_C5_witness :
    smallSizePR.additions + smallSizePR.deletions ≤
        largerSizePR.additions + largerSizePR.deletions ∧
      largerSizePR.additions + largerSizePR.deletions ≤ 30 ∧
      calculateImpactScore smallSizePR ≤ calculateImpactScore largerSizePR :=
  ⟨by decide, by decide,
    (claim_C5_impact_score_monotone smallSizePR largerSizePR).1 rfl rfl rfl
      (by decide) (by decide)⟩

/-- C6: a day-count input that is not a finite number (`none`) or is `≤ 0`
resolves to the default of 30 days; a valid (finite positive) input yields a
resolved range length in `[7, 90]` days, truncated to an integer (for an
in-range input the result is within `(q - 1, q]`); and the descriptor built
from the day count spans exactly that many days. -/
theorem claim_C6_range_resolution :
    coerceRange none = 30 ∧
    (∀ q : ℚ, q ≤ 0 → coerceRange (some q) = 30) ∧
    (∀ q : ℚ, 0 < q → 7 ≤ coerceRange (some q) ∧ coerceRange (some q) ≤ 90) ∧
    (∀ q : ℚ, 7 ≤ q → q ≤ 90 →
      (coerceRange (some q) : ℚ) ≤ q ∧ q - 1 < (coerceRange (some q) : ℚ)) ∧
    (∀ (rd : Option ℚ) (t : Int),
      (computeRangeDescriptor none none rd t).untilTs -
          (computeRangeDescriptor none none rd t).since =
        coerceRange rd * MILLISECONDS_PER_DAY) := by
  refine ⟨rfl, ?_, ?_, ?_, ?_⟩
  · intro q h
    simp [coerceRange, h, DEFAULT_RANGE_DAYS]
  · intro q h
    have h' : ¬(q ≤ 0) := not_le.mpr h
    simp only [coerceRange, h', if_false]
    exact ⟨le_min (by norm_num) (le_max_left _ _), min_le_left _ _⟩
  · intro q h7 h90
    have h0 : ¬(q ≤ 0) := by push_neg; linarith
    have h7f : (7 : ℤ) ≤ ⌊q⌋ := Int.le_floor.mpr (by exact_mod_cast h7)
    have h90f : ⌊q⌋ ≤ (90 : ℤ) := by
      have := (Int.floor_le q).trans h90
      exact_mod_cast this
    simp only [coerceRange, h0, if_false, max_eq_right h7f, min_eq_right h90f]
    exact ⟨Int.floor_le q, Int.sub_one_lt_floor q⟩
  · intro rd t
    simp only [computeRangeDescriptor]
    ring

theorem claim_C6_witness :
    coerceRange (some (-5 : ℚ)) = 30 ∧
      (7 ≤ coerceRange (some (45 : ℚ)) ∧ coerceRange (some (45 : ℚ)) ≤ 90) :=
  ⟨claim_C6_range_resolution.2.1 (-5) (by norm_num),
   claim_C6_range_resolution.2.2.1 45 (by norm_num)⟩

/-- Bounds of the health-score formula
`clamp [0,100] (round (0.3·mergedPRs + 6·deploymentFrequency + max(0, 40 − 2·openPRs)))`
once `deploymentFrequency ≥ 1`. -/
theorem healthScore_formula_bounds (mp op : ℕ) (df : ℤ) (h : 1 ≤ df) :
    6 ≤ max 0 (min 100 (jsRound
        ((mp : ℚ) * (3/10) + (df : ℚ) * 6 + max 0 (40 - (op : ℚ) * 2)))) ∧
      max 0 (min 100 (jsRound
        ((mp : ℚ) * (3/10) + (df : ℚ) * 6 + max 0 (40 - (op : ℚ) * 2)))) ≤ 100 := by
  have hE : (6 : ℚ) ≤ (mp : ℚ) * (3/10) + (df : ℚ) * 6 + max 0 (40 - (op : ℚ) * 2) := by
    have h1 : (0 : ℚ) ≤ (mp : ℚ) * (3/10) := by positivity
    have h2 : (6 : ℚ) ≤ (df : ℚ) * 6 := by
      have : (1 : ℚ) ≤ (df : ℚ) := by exact_mod_cast h
      linarith
    have h3 : (0 : ℚ) ≤ max 0 (40 - (op : ℚ) * 2) := le_max_left _ _
    linarith
  have hj : (6 : ℤ) ≤ jsRound ((mp : ℚ) * (3/10) + (df : ℚ) * 6 + max 0 (40 - (op : ℚ) * 2)) :=
    int_le_jsRound (by exact_mod_cast hE)
  constructor
  · exact le_trans (le_min (by norm_num) hj) (le_max_right _ _)
  · exact max_le (by norm_num) (min_le_left _ _)

/-- C10: for every repository and every collected pull-request list, the
derived `healthScore` lies in `[6, 100]`: `deploymentFrequency` is at least 1,
so the pre-clamp value `0.3·mergedPRs + 6·deploymentFrequency +
max(0, 40 − 2·openPRs)` is at least 6 and the lower clamp at 0 never binds. -/
theorem claim_C10_healthScore_bounds (n o : String) (prs : List GitHubPullRequest)
    (rg : RangeDescriptor) :
    6 ≤ (aggregateMetrics n o prs rg).repoMetric.healthScore ∧
      (aggregateMetrics n o prs rg).repoMetric.healthScore ≤ 100 :=
  healthScore_formula_bounds
    (prs.foldl (aggStep n o rg)
      { repoMetric := initRepoMetric n o, engineers := [], highImpact := [] }).repoMetric.mergedPRs
    (prs.foldl (aggStep n o rg)
      { repoMetric := initRepoMetric n o, engineers := [], highImpact := [] }).repoMetric.openPRs
    (max 1 (jsRound
      (((prs.foldl (aggStep n o rg)
          { repoMetric := initRepoMetric n o, engineers := [], highImpact := [] }).repoMetric.mergedPRs : ℚ) /
        (getRangeDayCount rg : ℚ))))
    (le_max_left _ _)

/-- C3: a collected PR contributes to `mergedPRs`, `linesAdded`,
`linesDeleted` and `commits` — both at repo level and on its author's
engineer record — exactly when its merge timestamp is non-null and lies in
`[since, until]` inclusive; every other PR increments `openPRs` only. The
per-author totals are stated through `find?` on the produced engineer list
(defaulting to 0 for an author with no collected PR). -/
theorem claim_C3_window_classification (n o : String)
    (prs : List GitHubPullRequest) (rg : RangeDescriptor) :
    (aggregateMetrics n o prs rg).repoMetric.mergedPRs =
        prs.countP (fun pr => withinRange pr.merged_at rg) ∧
      (aggregateMetrics n o prs rg).repoMetric.linesAdded =
        ((prs.filter (fun pr => withinRange pr.merged_at rg)).map
          GitHubPullRequest.additions).sum ∧
      (aggregateMetrics n o prs rg).repoMetric.linesDeleted =
        ((prs.filter (fun pr => withinRange pr.merged_at rg)).map
          GitHubPullRequest.deletions).sum ∧
      (aggregateMetrics n o prs rg).repoMetric.commits =
        ((prs.filter (fun pr => withinRange pr.merged_at rg)).map
          GitHubPullRequest.commits).sum ∧
      (aggregateMetrics n o prs rg).repoMetric.openPRs =
        prs.countP (fun pr => !(withinRange pr.merged_at rg)) ∧
      ∀ a : String,
        (((aggregateMetrics n o prs rg).engineerMetrics.find?
              (fun e => e.engineer == a)).map EngineerMetric.mergedPRs).getD 0 =
            (prs.filter (fun pr => authorOf pr == a)).countP
              (fun pr => withinRange pr.merged_at rg) ∧
          (((aggregateMetrics n o prs rg).engineerMetrics.find?
              (fun e => e.engineer == a)).map EngineerMetric.linesAdded).getD 0 =
            (((prs.filter (fun pr => authorOf pr == a)).filter
              (fun pr => withinRange pr.merged_at rg)).map
                GitHubPullRequest.additions).sum ∧
          (((aggregateMetrics n o prs rg).engineerMetrics.find?
              (fun e => e.engineer == a)).map EngineerMetric.linesDeleted).getD 0 =
            (((prs.filter (fun pr => authorOf pr == a)).filter
              (fun pr => withinRange pr.merged_at rg)).map
                GitHubPullRequest.deletions).sum ∧
          (((aggregateMetrics n o prs rg).engineerMetrics.find?
              (fun e => e.engineer == a)).map EngineerMetric.commits).getD 0 =
            (((prs.filter (fun pr => authorOf pr == a)).filter
              (fun pr => withinRange pr.merged_at rg)).map
                GitHubPullRequest.commits).sum := by
  obtain ⟨h1, h2, h3, h4, h5⟩ := foldl_aggStep_repo n o rg prs
    { repoMetric := initRepoMetric n o, engineers := [], highImpact := [] }
  refine ⟨?_, ?_, ?_, ?_, ?_, ?_⟩
  · rw [show (aggregateMetrics n o prs rg).repoMetric.mergedPRs =
        (prs.foldl (aggStep n o rg)
          { repoMetric := initRepoMetric n o, engineers := [], highImpact := [] }).repoMetric.mergedPRs
      from rfl, h1]
    simp [initRepoMetric]
  · rw [show (aggregateMetrics n o prs rg).repoMetric.linesAdded =
        (prs.foldl (aggStep n o rg)
          { repoMetric := initRepoMetric n o, engineers := [], highImpact := [] }).repoMetric.linesAdded
      from rfl, h2]
    simp [initRepoMetric]
  · rw [show (aggregateMetrics n o prs rg).repoMetric.linesDeleted =
        (prs.foldl (aggStep n o rg)
          { repoMetric := initRepoMetric n o, engineers := [], highImpact := [] }).repoMetric.linesDeleted
      from rfl, h3]
    simp [initRepoMetric]
  · rw [show (aggregateMetrics n o prs rg).repoMetric.commits =
        (prs.foldl (aggStep n o rg)
          { repoMetric := initRepoMetric n o, engineers := [], highImpact := [] }).repoMetric.commits
      from rfl, h4]
    simp [initRepoMetric]
  · rw [show (aggregateMetrics n o prs rg).repoMetric.openPRs =
        (prs.foldl (aggStep n o rg)
          { repoMetric := initRepoMetric n o, engineers := [], highImpact := [] }).repoMetric.openPRs
      from rfl, h5]
    simp [initRepoMetric]
  · intro a
    have hkeys : ∀ p ∈ (prs.foldl (aggStep n o rg)
        { repoMetric := initRepoMetric n o, engineers := [], highImpact := [] }).engineers,
        p.2.engineer = p.1 := by
      apply foldl_aggStep_keys
      intro p hp
      simp at hp
    have hfind := find_map_values (postCycle prs rg) (fun e => rfl) _ a hkeys
    have hget' : mapGet (prs.foldl (aggStep n o rg)
        { repoMetric := initRepoMetric n o, engineers := [], highImpact := [] }).engineers a =
        (prs.filter (fun pr => authorOf pr == a)).foldl
          (fun c pr => some (engUpd n rg c pr)) none := by
      simpa [mapGet] using foldl_aggStep_mapGet n o rg prs
        { repoMetric := initRepoMetric n o, engineers := [], highImpact := [] } a
    have hem : (aggregateMetrics n o prs rg).engineerMetrics =
        ((prs.foldl (aggStep n o rg)
          { repoMetric := initRepoMetric n o, engineers := [], highImpact := [] }).engineers).map
            (fun p => postCycle prs rg p.2) := rfl
    rw [hem, hfind, hget']
    cases hfa : prs.filter (fun pr => authorOf pr == a) with
    | nil => simp
    | cons p0 rest =>
      obtain ⟨e, he⟩ := engFold_isSome n rg rest (engUpd n rg none p0)
      have hsome : (p0 :: rest).foldl (fun c pr => some (engUpd n rg c pr)) none = some e := by
        rw [List.foldl_cons]
        exact he
      obtain ⟨t1, t2, t3, t4⟩ := engFold_totals n rg (p0 :: rest) none e hsome
      rw [hsome]
      simp only [Option.map_some', Option.getD_some, postCycle]
      exact ⟨by simpa using t1, by simpa using t2, by simpa using t3, by simpa using t4⟩

/-- A PR merged long before `since - 1 day` (a "stale" merge). -/
def stalePagePR : GitHubPullRequest :=
  { id := 1, number := 1, title := "s", user := none, merged_at := some (-200000000)
    created_at := 0, updated_at := 0, closed_at := none
    additions := 0, deletions := 0, changed_files := 0, commits := 0
    headRef := "h", baseRef := "b", html_url := "", draft := false }

/-- A PR sitting on the second result page. -/
def pageTwoPR : GitHubPullRequest :=
  { stalePagePR with id := 2, number := 2, merged_at := none }

/-- A paginated listing whose first page is a full page (50 items) starting
with a stale merge, and whose second page holds one more PR. -/
def stalePages : Nat → List GitHubPullRequest := fun page =>
  if page = 1 then List.replicate 50 stalePagePR
  else if page = 2 then [pageTwoPR] else []

/-- The window starting at time 0 used with `stalePages`. -/
def staleRange : RangeDescriptor := { since := 0, untilTs := 0, label := "" }

/-- C1: the first PR of page 1 is a stale merge, and page 1 is a full page;
the claim says pagination stops immediately and no further pages are
fetched — so the result should contain no page-2 record. The code instead
fetches page 2 (its PR is the whole result): the mid-page
`shouldContinue = false` is overwritten by the unconditional
`shouldContinue = batch.length === perPage` after the loop. -/
theorem claim_C1_stale_stop_overridden :
    isStaleMerge staleRange.since stalePagePR = true ∧
      (stalePages 1).length = 50 ∧
      pageTwoPR ∈ stalePages 2 ∧
      fetchPullRequestsForRepo stalePages staleRange = [pageTwoPR] :=
  ⟨by decide, by decide, by decide, by decide⟩

/-- C2: the inbound build-metrics-snapshot operation always responds with
status 200: with no credential it returns the illustrative mock snapshot
regardless of (hence without consulting) any build outcome; a successful
build returns its snapshot; any internal failure returns status 200 carrying
the error message and the same mock snapshot; and a build given neither an
org nor a repo list fails with the "Either org or repos must be provided"
error regardless of the network outcome. -/
theorem claim_C2_post_always_success :
    (∀ outcome : Except String MetricSnapshot,
      POST false outcome =
        { status := 200, body := PostBody.snapshot mockMetricSnapshot }) ∧
      (∀ outcome : Except String MetricSnapshot, (POST true outcome).status = 200) ∧
      (∀ s : MetricSnapshot,
        POST true (Except.ok s) = { status := 200, body := PostBody.snapshot s }) ∧
      (∀ e : String,
        POST true (Except.error e) =
          { status := 200, body := PostBody.errorWithFallback e mockMetricSnapshot }) ∧
      (∀ fetched : Except String MetricSnapshot,
        buildSnapshotOutcome none none fetched =
          Except.error "Either org or repos must be provided") ∧
      (∀ fetched : Except String MetricSnapshot,
        buildSnapshotOutcome none (some []) fetched =
          Except.error "Either org or repos must be provided") := by
  refine ⟨fun _ => rfl, fun outcome => ?_, fun _ => rfl, fun _ => rfl,
    fun _ => rfl, fun _ => rfl⟩
  cases outcome <;> rfl

/-- A PR author used in the `lastActive` instances. -/
def alice : GitHubUser := { login := "alice", avatar_url := none }

/-- A never-merged PR by `alice`, last updated at time 10. -/
def alicePR1 : GitHubPullRequest :=
  { id := 21, number := 21, title := "t1", user := some alice, merged_at := none
    created_at := 0, updated_at := 10, closed_at := none
    additions := 1, deletions := 1, changed_files := 1, commits := 1
    headRef := "h", baseRef := "b", html_url := "", draft := false }

/-- A second never-merged PR by `alice`, last updated later, at time 20. -/
def alicePR2 : GitHubPullRequest := { alicePR1 with id := 22, number := 22, updated_at := 20 }

/-- The window `[0, 100]` used in the `lastActive` instances. -/
def obsRange : RangeDescriptor := { since := 0, untilTs := 100, label := "" }

/-- C8 counterexample: with two never-merged PRs by the same author updated
at times 10 and then 20, the produced engineer record's `lastActive` is 10 —
the first PR's updated timestamp — not the maximum 20 over all of the
author's collected PRs: `lastActive` only advances on in-window-merged PRs. -/
theorem claim_C8_cex :
    ((aggregateMetrics "r" "o" [alicePR1, alicePR2] obsRange).engineerMetrics.find?
        (fun e => e.engineer == "alice")).map EngineerMetric.lastActive = some 10 ∧
      alicePR2.updated_at = 20 ∧ (10 : ℤ) ≠ 20 := by
  refine ⟨by decide, by decide, by decide⟩

/-- C8 (amended): for every engineer record produced by `aggregateMetrics`,
`lastActive` equals the fold over that author's collected PRs that starts at
the author's *first* collected PR's updated timestamp and advances to the
maximum updated timestamp over the author's *in-window-merged* PRs only;
out-of-window PRs after the first never advance it. -/
theorem claim_C8_amended_lastActive (n o : String) (prs : List GitHubPullRequest)
    (rg : RangeDescriptor) (a : String) (p0 : GitHubPullRequest)
    (rest : List GitHubPullRequest)
    (hfa : prs.filter (fun pr => authorOf pr == a) = p0 :: rest) :
    ((aggregateMetrics n o prs rg).engineerMetrics.find?
        (fun e => e.engineer == a)).map EngineerMetric.lastActive =
      some (rest.foldl
        (fun m pr => if withinRange pr.merged_at rg then max m pr.updated_at else m)
        p0.updated_at) := by
  have hkeys : ∀ p ∈ (prs.foldl (aggStep n o rg)
      { repoMetric := initRepoMetric n o, engineers := [], highImpact := [] }).engineers,
      p.2.engineer = p.1 := by
    apply foldl_aggStep_keys
    intro p hp
    simp at hp
  have hfind := find_map_values (postCycle prs rg) (fun e => rfl) _ a hkeys
  have hget' : mapGet (prs.foldl (aggStep n o rg)
      { repoMetric := initRepoMetric n o, engineers := [], highImpact := [] }).engineers a =
      (prs.filter (fun pr => authorOf pr == a)).foldl
        (fun c pr => some (engUpd n rg c pr)) none := by
    simpa [mapGet] using foldl_aggStep_mapGet n o rg prs
      { repoMetric := initRepoMetric n o, engineers := [], highImpact := [] } a
  have hem : (aggregateMetrics n o prs rg).engineerMetrics =
      ((prs.foldl (aggStep n o rg)
        { repoMetric := initRepoMetric n o, engineers := [], highImpact := [] }).engineers).map
          (fun p => postCycle prs rg p.2) := rfl
  rw [hem, hfind, hget', hfa]
  obtain ⟨e, he⟩ := engFold_isSome n rg rest (engUpd n rg none p0)
  have hsome : (p0 :: rest).foldl (fun c pr => some (engUpd n rg c pr)) none = some e := by
    rw [List.foldl_cons]
    exact he
  rw [hsome]
  have hla := engFold_lastActive n rg rest (engUpd n rg none p0) e he
  obtain ⟨-, -, -, -, -, hl0⟩ := engUpd_fields n rg none p0
  simp only [Option.map_some']
  congr 1
  show (postCycle prs rg e).lastActive = _
  have hpc : (postCycle prs rg e).lastActive = e.lastActive := rfl
  have hl0' : (engUpd n rg none p0).lastActive = p0.updated_at := by simpa using hl0
  rw [hpc, hla, hl0']

theorem claim_C8_witness :
    ((aggregateMetrics "r" "o" [alicePR1, alicePR2] obsRange).engineerMetrics.find?
        (fun e => e.engineer == "alice")).map EngineerMetric.lastActive =
      some ([alicePR2].foldl
        (fun m pr => if withinRange pr.merged_at obsRange then max m pr.updated_at else m)
        alicePR1.updated_at) :=
  claim_C8_amended_lastActive "r" "o" [alicePR1, alicePR2] obsRange "alice"
    alicePR1 [alicePR2] (by decide)

/-- Processing a list of PRs all authored `"unknown"` keeps the accumulator
map at the single key `"unknown"`. -/
theorem foldl_aggStep_single_unknown (n o : String) (rg : RangeDescriptor)
    (prs : List GitHubPullRequest) (st : AggState)
    (hall : ∀ pr ∈ prs, authorOf pr = "unknown")
    (hst : ∃ e, st.engineers = [("unknown", e)]) :
    ∃ e, (prs.foldl (aggStep n o rg) st).engineers = [("unknown", e)] := by
  induction prs generalizing st with
  | nil => exact hst
  | cons pr rest ih =>
    rw [List.foldl_cons]
    refine ih _ (fun q hq => hall q (List.mem_cons_of_mem _ hq)) ?_
    obtain ⟨e, he⟩ := hst
    have ha := hall pr (List.mem_cons_self _ _)
    show ∃ e2, mapSet st.engineers (authorOf pr)
      (engUpd n rg (mapGet st.engineers (authorOf pr)) pr) = [("unknown", e2)]
    rw [he, ha]
    exact ⟨engUpd n rg (mapGet [("unknown", e)] "unknown") pr, by simp [mapSet]⟩

/-- C9: when every collected PR lacks an author identity, the aggregator
attributes every PR to the single identity `"unknown"`: the produced engineer
list is one record named `"unknown"`, and `activeContributors` is exactly 1. -/
theorem claim_C9_unknown_author_folding (n o : String)
    (prs : List GitHubPullRequest) (rg : RangeDescriptor)
    (hne : prs ≠ []) (hall : ∀ pr ∈ prs, pr.user = none) :
    (aggregateMetrics n o prs rg).repoMetric.activeContributors = 1 ∧
      (aggregateMetrics n o prs rg).engineerMetrics.map EngineerMetric.engineer =
        ["unknown"] := by
  have hauthors : ∀ pr ∈ prs, authorOf pr = "unknown" := by
    intro pr h
    simp [authorOf, hall pr h]
  cases prs with
  | nil => exact absurd rfl hne
  | cons pr rest =>
    have ha := hauthors pr (List.mem_cons_self _ _)
    have hstep : ∃ v, (aggStep n o rg
        { repoMetric := initRepoMetric n o, engineers := [], highImpact := [] } pr).engineers =
        [("unknown", v)] := by
      show ∃ v, mapSet [] (authorOf pr) (engUpd n rg (mapGet [] (authorOf pr)) pr) =
        [("unknown", v)]
      rw [ha]
      exact ⟨engUpd n rg (mapGet [] "unknown") pr, by simp [mapSet]⟩
    obtain ⟨e, he⟩ := foldl_aggStep_single_unknown n o rg rest
      (aggStep n o rg { repoMetric := initRepoMetric n o, engineers := [], highImpact := [] } pr)
      (fun q hq => hauthors q (List.mem_cons_of_mem _ hq)) hstep
    have hkeys : ∀ p ∈ ((pr :: rest).foldl (aggStep n o rg)
        { repoMetric := initRepoMetric n o, engineers := [], highImpact := [] }).engineers,
        p.2.engineer = p.1 := by
      apply foldl_aggStep_keys
      intro p hp
      simp at hp
    have hfold : ((pr :: rest).foldl (aggStep n o rg)
        { repoMetric := initRepoMetric n o, engineers := [], highImpact := [] }).engineers =
        [("unknown", e)] := by
      rw [List.foldl_cons]
      exact he
    have heng : e.engineer = "unknown" := by
      have := hkeys ("unknown", e) (by rw [hfold]; exact List.mem_cons_self _ _)
      simpa using this
    constructor
    · show ((pr :: rest).foldl (aggStep n o rg)
        { repoMetric := initRepoMetric n o, engineers := [], highImpact := [] }).engineers.length = 1
      rw [hfold]
      rfl
    · show (((pr :: rest).foldl (aggStep n o rg)
        { repoMetric := initRepoMetric n o, engineers := [], highImpact := [] }).engineers.map
          (fun p => postCycle (pr :: rest) rg p.2)).map EngineerMetric.engineer = ["unknown"]
      rw [hfold]
      simp [postCycle, heng]

/-- A PR with no author identity at all. -/
def ghostPR : GitHubPullRequest :=
  { id := 31, number := 31, title := "g", user := none, merged_at := none
    created_at := 0, updated_at := 5, closed_at := none
    additions := 2, deletions := 0, changed_files := 1, commits := 1
    headRef := "h", baseRef := "b", html_url := "", draft := false }

theorem claim_C9_witness :
    (aggregateMetrics "r" "o" [ghostPR, { ghostPR with id := 32 }] obsRange).repoMetric.activeContributors = 1 ∧
      (aggregateMetrics "r" "o" [ghostPR, { ghostPR with id := 32 }]
        obsRange).engineerMetrics.map EngineerMetric.engineer = ["unknown"] :=
  claim_C9_unknown_author_folding "r" "o" [ghostPR, { ghostPR with id := 32 }] obsRange
    (by simp) (by decide)

/-- C7 counterexample: on a range spanning exactly 1.5 days,
`getRangeDayCount` returns 2 (it uses `Math.round`), while the floor-based
value the claim describes is `max 1 ⌊1.5⌋ = 1`. -/
theorem claim_C7_cex :
    getRangeDayCount { since := 0, untilTs := 129600000, label := "" } = 2 ∧
      max 1 ⌊(|(129600000 : ℤ) - 0| : ℚ) / (MILLISECONDS_PER_DAY : ℚ)⌋ = 1 := by
  constructor
  · norm_num [getRangeDayCount, jsRound, MILLISECONDS_PER_DAY]
  · norm_num [MILLISECONDS_PER_DAY]

/-- C7 (amended): `getRangeDayCount` returns the number of whole days between
`since` and `until` rounded to the *nearest* integer (halves up), with a
minimum of 1: the result is always ≥ 1, and either the exact day count is
below one half and the result is the minimum 1, or the result is within half
a day of the exact day count. -/
theorem claim_C7_amended (r : RangeDescriptor) :
    1 ≤ getRangeDayCount r ∧
      ((((|r.untilTs - r.since| : ℤ) : ℚ) / (MILLISECONDS_PER_DAY : ℚ) < 1/2 ∧
          getRangeDayCount r = 1) ∨
        ((getRangeDayCount r : ℚ) ≤
            ((|r.untilTs - r.since| : ℤ) : ℚ) / (MILLISECONDS_PER_DAY : ℚ) + 1/2 ∧
          ((|r.untilTs - r.since| : ℤ) : ℚ) / (MILLISECONDS_PER_DAY : ℚ) - 1/2 <
            (getRangeDayCount r : ℚ))) := by
  have hx0 : (0 : ℚ) ≤ ((|r.untilTs - r.since| : ℤ) : ℚ) / (MILLISECONDS_PER_DAY : ℚ) := by
    apply div_nonneg
    · exact_mod_cast abs_nonneg _
    · norm_num [MILLISECONDS_PER_DAY]
  set x : ℚ := ((|r.untilTs - r.since| : ℤ) : ℚ) / (MILLISECONDS_PER_DAY : ℚ) with hxd
  have hget : getRangeDayCount r = max 1 (jsRound x) := rfl
  refine ⟨by rw [hget]; exact le_max_left _ _, ?_⟩
  by_cases hhalf : x < 1/2
  · left
    refine ⟨hhalf, ?_⟩
    have hz : jsRound x = 0 := by
      unfold jsRound
      rw [Int.floor_eq_zero_iff, Set.mem_Ico]
      constructor <;> linarith
    rw [hget, hz]
    norm_num
  · right
    push_neg at hhalf
    have h1 : (1 : ℤ) ≤ jsRound x := by
      unfold jsRound
      rw [Int.le_floor]
      push_cast
      linarith
    rw [hget, max_eq_right h1]
    exact ⟨jsRound_le_add_half x, sub_half_lt_jsRound x⟩
